import Mathlib

/-!
Verification of the tensor utility module `rasa/utils/tensorflow/layers_utils.py`.

Tensors are modelled shallowly as a list of axis sizes (`shape`) together with
the flat element data in row-major order.  Integer tensors carry `Int` data,
floating-point tensors carry `ℚ` data (float32 arithmetic is modelled exactly
over the rationals).  Fallible TensorFlow operations (reshape with an
uninferable `-1` dimension, gather with out-of-range indices, pad with
negative padding) are modelled with `Option`.
-/

namespace LayersUtils

/-- A dense rectangular tensor: `shape` lists the axis sizes and `data` holds
the elements in row-major order. -/
structure Tensor (α : Type) where
  shape : List Nat
  data : List α
  deriving DecidableEq

/-- Well-formedness: the flat data holds exactly as many elements as the shape
prescribes. -/
def Tensor.wf {α : Type} (t : Tensor α) : Prop :=
  t.data.length = t.shape.prod

instance {α : Type} (t : Tensor α) : Decidable t.wf := by
  unfold Tensor.wf; infer_instance

/-- A tensor tagged with its dtype, used to model results whose TensorFlow
dtype (int32 versus float32) depends on a branch. -/
inductive DTensor where
  | ofInt (t : Tensor Int)
  | ofFloat (t : Tensor ℚ)
  deriving DecidableEq

/-- Whether a dtype-tagged tensor is an int32 tensor. -/
def DTensor.isInt : DTensor → Bool
  | ofInt _ => true
  | ofFloat _ => false

/-- Shape of a dtype-tagged tensor. -/
def DTensor.shape : DTensor → List Nat
  | ofInt t => t.shape
  | ofFloat t => t.shape

/-- Data of an int32 dtype-tagged tensor (empty for a float tensor). -/
def DTensor.intData : DTensor → List Int
  | ofInt t => t.data
  | ofFloat _ => []

/-- `random_indices(batch_size, n, n_max)`:
`tf.random.uniform(shape=(batch_size, n), maxval=n_max, dtype=tf.int32)` when
`n_max > 0`, else `tf.zeros((batch_size, n))`.  `tf.random.uniform` draws
independent integers uniformly from `[0, n_max)`; the pseudo-random source is
abstracted as a stream `r` of naturals, each draw reduced into the range by
`% n_max`.  `tf.zeros` defaults to dtype float32. -/
def random_indices (r : Nat → Nat) (batch_size n : Nat) (n_max : Int) : DTensor :=
  if 0 < n_max then
    .ofInt ⟨[batch_size, n],
      (List.range (batch_size * n)).map fun i => ((r i % n_max.toNat : Nat) : Int)⟩
  else
    .ofFloat ⟨[batch_size, n], List.replicate (batch_size * n) 0⟩

/-- Inference of the `-1` dimension in `tf.reshape(x, (-1, L))` for an input of
`N` elements: TensorFlow rejects the reshape when `L = 0` (it cannot infer the
missing size when a specified size is zero) or when `N` is not a multiple of
`L`; otherwise the inferred dimension is `N / L`. -/
def reshapeInfer (N L : Nat) : Option Nat :=
  if L = 0 then none
  else if N % L = 0 then some (N / L) else none

/-- `batch_flatten(x)`: `tf.reshape(x, (-1, x.shape[-1]))`.  On a rank-0 tensor
`x.shape[-1]` raises `IndexError` (no last axis), modelled as `none`.  A
reshape leaves the row-major data unchanged. -/
def batch_flatten {α : Type} (x : Tensor α) : Option (Tensor α) :=
  match x.shape.getLast? with
  | none => none
  | some L =>
    match reshapeInfer x.data.length L with
    | none => none
    | some P => some ⟨[P, L], x.data⟩

/-- C4: for positive `batch_size` and `n` and `n_max > 0`, `random_indices`
returns an int32 tensor of shape `(batch_size, n)` all of whose
`batch_size * n` elements lie in `[0, n_max)`, for every random stream `r`. -/
theorem random_indices_pos (r : Nat → Nat) (batch_size n : Nat) (n_max : Int)
    (hb : 0 < batch_size) (hn : 0 < n) (hmax : 0 < n_max) :
    (random_indices r batch_size n n_max).isInt = true ∧
    (random_indices r batch_size n n_max).shape = [batch_size, n] ∧
    (random_indices r batch_size n n_max).intData.length = batch_size * n ∧
    ∀ v ∈ (random_indices r batch_size n n_max).intData, 0 ≤ v ∧ v < n_max := by
  unfold random_indices
  rw [if_pos hmax]
  refine ⟨rfl, rfl, by simp [DTensor.intData], ?_⟩
  intro v hv
  simp only [DTensor.intData, List.mem_map, List.mem_range] at hv
  obtain ⟨i, _, rfl⟩ := hv
  have htn : 0 < n_max.toNat := by omega
  constructor
  · exact Int.ofNat_nonneg _
  · have hlt : r i % n_max.toNat < n_max.toNat := Nat.mod_lt _ htn
    omega

/-- Witness for C4 at the worked example `batch_size = 100`, `n = 3`,
`n_max = 5`. -/
theorem random_indices_pos_witness :
    0 < 100 ∧ 0 < 3 ∧ (0 : Int) < 5 ∧
    ((random_indices (fun k => k) 100 3 5).isInt = true ∧
     (random_indices (fun k => k) 100 3 5).shape = [100, 3] ∧
     (random_indices (fun k => k) 100 3 5).intData.length = 100 * 3 ∧
     ∀ v ∈ (random_indices (fun k => k) 100 3 5).intData, 0 ≤ v ∧ v < 5) :=
  ⟨by decide, by decide, by decide,
    random_indices_pos (fun k => k) 100 3 5 (by decide) (by decide) (by decide)⟩

/-- C5: for `n_max ≤ 0`, `random_indices` returns (without failing) a
float32 tensor of shape `(batch_size, n)` filled with zeros. -/
theorem random_indices_nonpos (r : Nat → Nat) (batch_size n : Nat) (n_max : Int)
    (hb : 0 < batch_size) (hn : 0 < n) (hmax : n_max ≤ 0) :
    random_indices r batch_size n n_max =
      .ofFloat ⟨[batch_size, n], List.replicate (batch_size * n) (0 : ℚ)⟩ := by
  unfold random_indices
  rw [if_neg (by omega)]

/-- Witness for C5 at `batch_size = 100`, `n = 3`, `n_max = 0`. -/
theorem random_indices_nonpos_witness :
    0 < 100 ∧ 0 < 3 ∧ (0 : Int) ≤ 0 ∧
    random_indices (fun k => k) 100 3 0 =
      .ofFloat ⟨[100, 3], List.replicate (100 * 3) (0 : ℚ)⟩ :=
  ⟨by decide, by decide, by decide,
    random_indices_nonpos (fun k => k) 100 3 0 (by decide) (by decide) (by decide)⟩

/-- Computation of `batch_flatten` whenever the last axis size is nonzero
(shared by several claims below). -/
theorem batch_flatten_eq {α : Type} (x : Tensor α) (L : Nat) (hwf : x.wf)
    (hrank : 2 ≤ x.shape.length) (hlast : x.shape.getLast? = some L) (hL : L ≠ 0) :
    batch_flatten x = some ⟨[x.shape.dropLast.prod, L], x.data⟩ := by
  have hne : x.shape ≠ [] := by
    intro h; rw [h] at hrank; simp at hrank
  have hsplit : x.shape.dropLast ++ [L] = x.shape := by
    have := List.dropLast_append_getLast hne
    rwa [List.getLast_eq_iff_getLast?_eq_some hne |>.mpr hlast] at this
  have hprod : x.shape.prod = x.shape.dropLast.prod * L := by
    conv_lhs => rw [← hsplit]
    simp
  have hlen : x.data.length = x.shape.dropLast.prod * L := by
    have h0 : x.data.length = x.shape.prod := hwf
    rw [h0, hprod]
  unfold batch_flatten reshapeInfer
  simp only [hlast]
  rw [hlen, if_neg hL, if_pos (Nat.mul_mod_left _ _),
    Nat.mul_div_cancel _ (Nat.pos_of_ne_zero hL)]

/-- C2 (amended): for every well-formed tensor `x` with at least 2 axes whose
last axis size `L` is nonzero, `batch_flatten` returns the 2-D tensor of shape
`(product of all axes but the last, L)` whose row-major data is exactly that of
`x` (so the output row at flat position `i` holds exactly the elements at
collapsed leading position `i` of `x`).  When `L = 0` the reshape fails, see
the counterexample. -/
theorem batch_flatten_spec {α : Type} (x : Tensor α) (L : Nat) (hwf : x.wf)
    (hrank : 2 ≤ x.shape.length) (hlast : x.shape.getLast? = some L) (hL : L ≠ 0) :
    batch_flatten x = some ⟨[x.shape.dropLast.prod, L], x.data⟩ :=
  batch_flatten_eq x L hwf hrank hlast hL

/-- Witness for C2 at a tensor of shape `(2, 3)`. -/
theorem batch_flatten_spec_witness :
    (⟨[2, 3], [0, 1, 2, 3, 4, 5]⟩ : Tensor ℚ).wf ∧
    2 ≤ ([2, 3] : List Nat).length ∧
    ([2, 3] : List Nat).getLast? = some 3 ∧ 3 ≠ 0 ∧
    batch_flatten (⟨[2, 3], [0, 1, 2, 3, 4, 5]⟩ : Tensor ℚ) =
      some ⟨[([2, 3] : List Nat).dropLast.prod, 3], [0, 1, 2, 3, 4, 5]⟩ :=
  ⟨by decide, by decide, by decide, by decide,
    batch_flatten_spec (⟨[2, 3], [0, 1, 2, 3, 4, 5]⟩ : Tensor ℚ) 3
      (by decide) (by decide) (by decide) (by decide)⟩

/-- Counterexample to C2 as stated: the well-formed tensor of shape `(2, 0)`
has at least 2 axes, but `tf.reshape(x, (-1, 0))` fails (TensorFlow cannot
infer the `-1` dimension when a specified size is zero), so `batch_flatten`
does not return a tensor of shape `(2, 0)`. -/
theorem batch_flatten_zero_last_axis :
    (⟨[2, 0], []⟩ : Tensor ℚ).wf ∧
    2 ≤ ([2, 0] : List Nat).length ∧
    batch_flatten (⟨[2, 0], []⟩ : Tensor ℚ) = none :=
  ⟨by decide, by decide, by decide⟩

/-- C8 (amended): on a well-formed tensor of rank below 2, `batch_flatten`
fails exactly when the tensor has rank 0 (`x.shape[-1]` raises) or is the
empty rank-1 tensor of shape `(0,)` (the reshape cannot infer the `-1`
dimension); a rank-1 tensor of nonzero length `n` succeeds instead, returning
a tensor of shape `(1, n)`. -/
theorem batch_flatten_low_rank {α : Type} (x : Tensor α) (hwf : x.wf)
    (hrank : x.shape.length < 2) :
    batch_flatten x = none ↔ x.shape = [] ∨ x.shape = [0] := by
  rw [Tensor.wf] at hwf
  match hs : x.shape with
  | [] =>
    unfold batch_flatten
    rw [hs]
    simp
  | [n] =>
    unfold batch_flatten reshapeInfer
    rw [hs] at hwf ⊢
    simp only [List.prod_cons, List.prod_nil, mul_one] at hwf
    by_cases hn : n = 0
    · subst hn
      simp
    · rw [List.getLast?_singleton]
      simp only [hwf, if_neg hn, Nat.mod_self, if_pos rfl]
      simp [hn]
  | a :: b :: t =>
    rw [hs] at hrank
    simp only [List.length_cons] at hrank
    omega

/-- Witness for C8 at the rank-0 tensor. -/
theorem batch_flatten_low_rank_witness :
    (⟨[], [5]⟩ : Tensor ℚ).wf ∧ ([] : List Nat).length < 2 ∧
    (batch_flatten (⟨[], [5]⟩ : Tensor ℚ) = none ↔
      ([] : List Nat) = [] ∨ ([] : List Nat) = [0]) :=
  ⟨by decide, by decide,
    batch_flatten_low_rank (⟨[], [5]⟩ : Tensor ℚ) (by decide) (by decide)⟩

/-- Counterexample to C8 as stated: the rank-1 tensor `[1, 2, 3]` has fewer
than 2 axes, yet `batch_flatten` does not fail; it returns the tensor of shape
`(1, 3)` holding the same data. -/
theorem batch_flatten_rank1_ok :
    ([3] : List Nat).length < 2 ∧
    batch_flatten (⟨[3], [1, 2, 3]⟩ : Tensor ℚ) = some ⟨[1, 3], [1, 2, 3]⟩ :=
  ⟨by decide, by decide⟩

/-- Pointwise `≤` on two shape lists of equal rank (false on rank mismatch). -/
def dimLe : List Nat → List Nat → Bool
  | [], [] => true
  | s0 :: ss, t0 :: ts => decide (s0 ≤ t0) && dimLe ss ts
  | _, _ => false

/-- Pointwise `<` of a multi-index against a shape of equal rank (false on
rank mismatch): the multi-index addresses a cell of the shape. -/
def dimLt : List Nat → List Nat → Bool
  | [], [] => true
  | i :: js, s0 :: ss => decide (i < s0) && dimLt js ss
  | _, _ => false

/-- Row-major flat position of a multi-index in a tensor of the given shape. -/
def flatIndex : List Nat → List Nat → Nat
  | _ :: ss, i :: js => i * ss.prod + flatIndex ss js
  | _, _ => 0

/-- Element of a tensor at a multi-index (default `d₀` out of range). -/
def Tensor.entry {α : Type} (t : Tensor α) (idx : List Nat) (d₀ : α) : α :=
  t.data.getD (flatIndex t.shape idx) d₀

/-- Constant padding of row-major data from shape `s` up to shape `t`: along
the leading axis the first `s0` blocks are padded recursively and the
remaining `t0 - s0` blocks are filled with `v`.  This is `tf.pad` with
paddings `[0, t_k - s_k]` per axis on row-major data. -/
def padData {α : Type} (v : α) : List Nat → List Nat → List α → List α
  | [], [], d => d
  | s0 :: ss, t0 :: ts, d =>
    (List.range t0).flatMap fun i =>
      if i < s0 then padData v ss ts ((d.drop (i * ss.prod)).take ss.prod)
      else List.replicate ts.prod v
  | _, _, d => d

/-- `pad_right(x, target_shape, value)`: the paddings tensor is
`concat([zeros, target_shape - tf.shape(x)], -1)`, i.e. `[0, t_k - s_k]` per
axis, fed to `tf.pad(..., "CONSTANT", constant_values=value)`.  `tf.pad`
rejects negative paddings and mismatched ranks, modelled by the `dimLe`
guard. -/
def pad_right {α : Type} (x : Tensor α) (target_shape : List Nat) (value : α) :
    Option (Tensor α) :=
  if dimLe x.shape target_shape then
    some ⟨target_shape, padData value x.shape target_shape x.data⟩
  else none

theorem dimLe_refl (s : List Nat) : dimLe s s = true := by
  induction s with
  | nil => rfl
  | cons s0 ss ih => simp [dimLe, ih]

theorem flatMap_length_uniform {α β : Type} (f : β → List α) (c : Nat) :
    ∀ l : List β, (∀ b ∈ l, (f b).length = c) → (l.flatMap f).length = l.length * c := by
  intro l
  induction l with
  | nil => intro _; simp
  | cons b bs ih =>
    intro hf
    rw [List.flatMap_cons, List.length_append, hf b (List.mem_cons_self b bs),
      ih fun b hb => hf b (List.mem_cons_of_mem _ hb), List.length_cons]
    ring

theorem flatMap_slice_uniform {α β : Type} (f : β → List α) (c : Nat) :
    ∀ (l : List β), (∀ b ∈ l, (f b).length = c) →
      ∀ (i : Nat) (hi : i < l.length) (r m : Nat), r + m ≤ c →
      ((l.flatMap f).drop (i * c + r)).take m = ((f (l.get ⟨i, hi⟩)).drop r).take m := by
  intro l
  induction l with
  | nil => intro _ i hi; simp at hi
  | cons b bs ih =>
    intro hf i hi r m hrm
    have hfb : (f b).length = c := hf b (List.mem_cons_self b bs)
    cases i with
    | zero =>
      rw [List.flatMap_cons]
      simp only [Nat.zero_mul, Nat.zero_add]
      rw [List.drop_append_of_le_length (by omega),
        List.take_append_of_le_length (by rw [List.length_drop]; omega)]
      rfl
    | succ i =>
      rw [List.flatMap_cons]
      have harith : Nat.succ i * c + r = (f b).length + (i * c + r) := by
        rw [hfb, Nat.succ_mul]; ring
      rw [harith, List.drop_append,
        ih (fun b hb => hf b (List.mem_cons_of_mem _ hb)) i
          (by simpa using Nat.lt_of_succ_lt_succ hi) r m hrm]
      rfl

theorem getD_via_slice {α : Type} (L : List α) (n : Nat) (d₀ : α) :
    L.getD n d₀ = ((L.drop n).take 1).getD 0 d₀ := by
  rw [List.getD_eq_getElem?_getD, List.getD_eq_getElem?_getD, List.getElem?_take]
  simp [List.getElem?_drop]

theorem flatMap_getD_uniform {α β : Type} (f : β → List α) (c : Nat) (d₀ : α)
    (l : List β) (hf : ∀ b ∈ l, (f b).length = c) (i r : Nat)
    (hi : i < l.length) (hr : r < c) :
    (l.flatMap f).getD (i * c + r) d₀ = (f (l.get ⟨i, hi⟩)).getD r d₀ := by
  rw [getD_via_slice, flatMap_slice_uniform f c l hf i hi r 1 (by omega),
    ← getD_via_slice]

theorem getD_take_drop {α : Type} (d : List α) (a c r : Nat) (d₀ : α) (hr : r < c) :
    ((d.drop a).take c).getD r d₀ = d.getD (a + r) d₀ := by
  rw [List.getD_eq_getElem?_getD, List.getD_eq_getElem?_getD, List.getElem?_take,
    if_pos hr, List.getElem?_drop]

theorem getD_replicate_of_lt {α : Type} (n r : Nat) (v d₀ : α) (hr : r < n) :
    (List.replicate n v).getD r d₀ = v := by
  rw [List.getD_eq_getElem?_getD, List.getElem?_replicate, if_pos hr]
  rfl

theorem chunk_length {α : Type} (d : List α) (p i s0 : Nat)
    (hi : i < s0) (hlen : d.length = s0 * p) :
    ((d.drop (i * p)).take p).length = p := by
  rw [List.length_take, List.length_drop, hlen]
  have h1 : i * p + p ≤ s0 * p := by
    have := Nat.mul_le_mul_right p (Nat.succ_le_of_lt hi)
    rw [Nat.succ_mul] at this
    exact this
  exact Nat.min_eq_left (Nat.le_sub_of_add_le (by rw [Nat.add_comm]; exact h1))

theorem range_flatMap_chunks {α : Type} (c : Nat) :
    ∀ (n : Nat) (d : List α), d.length = n * c →
      (List.range n).flatMap (fun i => (d.drop (i * c)).take c) = d := by
  intro n
  induction n with
  | zero =>
    intro d h
    rw [Nat.zero_mul] at h
    rw [List.eq_nil_of_length_eq_zero h]
    rfl
  | succ n ih =>
    intro d h
    rw [List.range_succ_eq_map, List.flatMap_cons, List.flatMap_map]
    have key : ∀ i : Nat, (d.drop (Nat.succ i * c)).take c =
        ((d.drop c).drop (i * c)).take c := by
      intro i
      rw [List.drop_drop]
      congr 2
      rw [Nat.succ_mul]
      ring
    simp only [key]
    rw [ih (d.drop c) (by rw [List.length_drop, h, Nat.succ_mul]; omega)]
    simp only [Nat.zero_mul, List.drop_zero]
    exact List.take_append_drop c d

theorem flatIndex_lt_prod : ∀ (s idx : List Nat), dimLt idx s = true →
    flatIndex s idx < s.prod := by
  intro s
  induction s with
  | nil =>
    intro idx h
    cases idx with
    | nil => simp [flatIndex]
    | cons i js => simp [dimLt] at h
  | cons s0 ss ih =>
    intro idx h
    cases idx with
    | nil => simp [dimLt] at h
    | cons i js =>
      simp only [dimLt, Bool.and_eq_true, decide_eq_true_eq] at h
      obtain ⟨hi, hjs⟩ := h
      show i * ss.prod + flatIndex ss js < (s0 :: ss).prod
      rw [List.prod_cons]
      calc i * ss.prod + flatIndex ss js < i * ss.prod + ss.prod :=
            Nat.add_lt_add_left (ih js hjs) _
        _ = (i + 1) * ss.prod := by ring
        _ ≤ s0 * ss.prod := Nat.mul_le_mul_right _ (Nat.succ_le_of_lt hi)

theorem padData_length {α : Type} (v : α) :
    ∀ (s t : List Nat) (d : List α), dimLe s t = true → d.length = s.prod →
      (padData v s t d).length = t.prod := by
  intro s
  induction s with
  | nil =>
    intro t d hle hlen
    cases t with
    | nil => simpa [padData] using hlen
    | cons t0 ts => simp [dimLe] at hle
  | cons s0 ss ih =>
    intro t d hle hlen
    cases t with
    | nil => simp [dimLe] at hle
    | cons t0 ts =>
      simp only [dimLe, Bool.and_eq_true, decide_eq_true_eq] at hle
      obtain ⟨hs0, hss⟩ := hle
      rw [List.prod_cons] at hlen
      show ((List.range t0).flatMap _).length = _
      rw [flatMap_length_uniform _ ts.prod _ ?hf, List.length_range, List.prod_cons]
      case hf =>
        intro i hi
        rw [List.mem_range] at hi
        by_cases hlt : i < s0
        · rw [if_pos hlt]
          exact ih ts _ hss (chunk_length d ss.prod i s0 hlt hlen)
        · rw [if_neg hlt]
          exact List.length_replicate _ _

theorem padData_getD {α : Type} (v d₀ : α) :
    ∀ (s t idx : List Nat) (d : List α), dimLe s t = true → dimLt idx t = true →
      d.length = s.prod →
      (padData v s t d).getD (flatIndex t idx) d₀ =
        if dimLt idx s = true then d.getD (flatIndex s idx) d₀ else v := by
  intro s
  induction s with
  | nil =>
    intro t idx d hle hidx hlen
    cases t with
    | nil =>
      cases idx with
      | nil => simp [padData, flatIndex, dimLt]
      | cons i js => simp [dimLt] at hidx
    | cons t0 ts => simp [dimLe] at hle
  | cons s0 ss ih =>
    intro t idx d hle hidx hlen
    cases t with
    | nil => simp [dimLe] at hle
    | cons t0 ts =>
      cases idx with
      | nil => simp [dimLt] at hidx
      | cons i js =>
        simp only [dimLe, Bool.and_eq_true, decide_eq_true_eq] at hle
        obtain ⟨hs0, hss⟩ := hle
        simp only [dimLt, Bool.and_eq_true, decide_eq_true_eq] at hidx
        obtain ⟨hit, hjs⟩ := hidx
        rw [List.prod_cons] at hlen
        show ((List.range t0).flatMap _).getD (i * ts.prod + flatIndex ts js) d₀ = _
        have hf : ∀ j ∈ List.range t0,
            ((if j < s0 then padData v ss ts ((d.drop (j * ss.prod)).take ss.prod)
              else List.replicate ts.prod v)).length = ts.prod := by
          intro j hj
          rw [List.mem_range] at hj
          by_cases hlt : j < s0
          · rw [if_pos hlt]
            exact padData_length v ss ts _ hss (chunk_length d ss.prod j s0 hlt hlen)
          · rw [if_neg hlt]
            exact List.length_replicate _ _
        rw [flatMap_getD_uniform _ ts.prod d₀ _ hf i (flatIndex ts js)
          (by simpa using hit) (flatIndex_lt_prod ts js hjs), List.get_range]
        by_cases hlt : i < s0
        · rw [if_pos hlt,
            ih ts js _ hss hjs (chunk_length d ss.prod i s0 hlt hlen)]
          by_cases h2 : dimLt js ss = true
          · rw [if_pos h2, if_pos (by simp [dimLt, hlt, h2]),
              getD_take_drop d (i * ss.prod) ss.prod (flatIndex ss js) d₀
                (flatIndex_lt_prod ss js h2)]
            rfl
          · rw [if_neg h2, if_neg (by simp [dimLt, h2])]
        · rw [if_neg hlt,
            getD_replicate_of_lt ts.prod (flatIndex ts js) v d₀
              (flatIndex_lt_prod ts js hjs),
            if_neg (by simp [dimLt, hlt])]

theorem padData_self {α : Type} (v : α) :
    ∀ (s : List Nat) (d : List α), d.length = s.prod → padData v s s d = d := by
  intro s
  induction s with
  | nil => intro d _; rfl
  | cons s0 ss ih =>
    intro d hlen
    rw [List.prod_cons] at hlen
    show (List.range s0).flatMap _ = d
    have key : ∀ i ∈ List.range s0,
        (if i < s0 then padData v ss ss ((d.drop (i * ss.prod)).take ss.prod)
          else List.replicate ss.prod v) = (d.drop (i * ss.prod)).take ss.prod := by
      intro i hi
      rw [List.mem_range] at hi
      rw [if_pos hi, ih _ (chunk_length d ss.prod i s0 hi hlen)]
    rw [List.flatMap_congr key]
    exact range_flatMap_chunks ss.prod s0 d hlen

/-- C3: for every well-formed tensor `x`, target shape of the same rank at
least as large as the shape of `x` on every axis, and value `v`, `pad_right`
returns a well-formed tensor of exactly the target shape whose entry at every
multi-index inside the target bounds equals `x` at that multi-index when it
lies within the bounds of `x`, and `v` otherwise: existing data stays at its
own multi-index, so padding is appended only at the high end of each axis. -/
theorem pad_right_spec {α : Type} (x : Tensor α) (target : List Nat) (v d₀ : α)
    (idx : List Nat) (hwf : x.wf) (hle : dimLe x.shape target = true)
    (hidx : dimLt idx target = true) :
    ∃ t, pad_right x target v = some t ∧ t.shape = target ∧ t.wf ∧
      t.entry idx d₀ = if dimLt idx x.shape = true then x.entry idx d₀ else v := by
  refine ⟨⟨target, padData v x.shape target x.data⟩, ?_, rfl, ?_, ?_⟩
  · unfold pad_right
    rw [if_pos hle]
  · show (padData v x.shape target x.data).length = target.prod
    exact padData_length v x.shape target x.data hle hwf
  · show (padData v x.shape target x.data).getD (flatIndex target idx) d₀ = _
    exact padData_getD v d₀ x.shape target idx x.data hle hidx hwf

/-- Witness for C3 at the worked example `x = [[1, 2], [3, 4]]`,
`target_shape = (3, 4)`, `value = 0`, at the padding multi-index `(2, 3)`. -/
theorem pad_right_spec_witness :
    (⟨[2, 2], [1, 2, 3, 4]⟩ : Tensor ℚ).wf ∧
    dimLe [2, 2] [3, 4] = true ∧ dimLt [2, 3] [3, 4] = true ∧
    (∃ t, pad_right (⟨[2, 2], [1, 2, 3, 4]⟩ : Tensor ℚ) [3, 4] 0 = some t ∧
      t.shape = [3, 4] ∧ t.wf ∧
      t.entry [2, 3] 0 =
        if dimLt [2, 3] [2, 2] = true then
          (⟨[2, 2], [1, 2, 3, 4]⟩ : Tensor ℚ).entry [2, 3] 0
        else 0) :=
  ⟨by decide, by decide, by decide,
    pad_right_spec (⟨[2, 2], [1, 2, 3, 4]⟩ : Tensor ℚ) [3, 4] 0 0 [2, 3]
      (by decide) (by decide) (by decide)⟩

/-- C9: `pad_right` invoked with a target shape equal to the shape of `x`
returns `x` unchanged. -/
theorem pad_right_identity {α : Type} (x : Tensor α) (v : α) (hwf : x.wf) :
    pad_right x x.shape v = some x := by
  unfold pad_right
  rw [if_pos (dimLe_refl _), padData_self v x.shape x.data hwf]

/-- Witness for C9 at `x = [[1, 2], [3, 4]]` with `value = 7`. -/
theorem pad_right_identity_witness :
    (⟨[2, 2], [1, 2, 3, 4]⟩ : Tensor ℚ).wf ∧
    pad_right (⟨[2, 2], [1, 2, 3, 4]⟩ : Tensor ℚ) [2, 2] 7 =
      some ⟨[2, 2], [1, 2, 3, 4]⟩ :=
  ⟨by decide, pad_right_identity (⟨[2, 2], [1, 2, 3, 4]⟩ : Tensor ℚ) 7 (by decide)⟩

/-- `tf.cast(tf.math.equal(x, y), tf.float32)` for two tensors of identical
shape: elementwise 1 where equal, 0 where not (float32 modelled exactly
over ℚ). -/
def equalFloat (x y : Tensor ℚ) : Tensor ℚ :=
  ⟨x.shape, List.zipWith (fun a b => if a = b then (1 : ℚ) else 0) x.data y.data⟩

/-- `tf.reduce_mean` over all elements: the sum divided by the element count.
TensorFlow returns NaN for the mean of zero elements, modelled as `none`. -/
def reduce_mean (d : List ℚ) : Option ℚ :=
  if d.length = 0 then none else some (d.sum / (d.length : ℚ))

/-- `reduce_mean_equal(x, y)`:
`tf.reduce_mean(tf.cast(tf.math.equal(x, y), tf.float32))`. -/
def reduce_mean_equal (x y : Tensor ℚ) : Option ℚ :=
  reduce_mean (equalFloat x y).data

/-- Number of positions at which `x` and `y` hold equal elements (the
specification side of the C6 equation). -/
def eqCount (x y : Tensor ℚ) : Nat :=
  (List.zipWith (fun a b => decide (a = b)) x.data y.data).count true

theorem indicator_sum_eq_count : ∀ (xs ys : List ℚ),
    (List.zipWith (fun a b => if a = b then (1 : ℚ) else 0) xs ys).sum =
      ((List.zipWith (fun a b => decide (a = b)) xs ys).count true : ℚ) := by
  intro xs
  induction xs with
  | nil => intro ys; simp
  | cons a xs ih =>
    intro ys
    cases ys with
    | nil => simp
    | cons b ys =>
      simp only [List.zipWith_cons_cons, List.sum_cons, ih ys, List.count_cons]
      by_cases hab : a = b
      · simp [hab]
        ring
      · simp [hab]

theorem indicator_sum_nonneg : ∀ (xs ys : List ℚ),
    0 ≤ (List.zipWith (fun a b => if a = b then (1 : ℚ) else 0) xs ys).sum := by
  intro xs
  induction xs with
  | nil => intro ys; simp
  | cons a xs ih =>
    intro ys
    cases ys with
    | nil => simp
    | cons b ys =>
      simp only [List.zipWith_cons_cons, List.sum_cons]
      have h1 : (0 : ℚ) ≤ if a = b then (1 : ℚ) else 0 := by
        by_cases hab : a = b <;> simp [hab]
      have h2 := ih ys
      linarith

theorem indicator_sum_le_length : ∀ (xs ys : List ℚ),
    (List.zipWith (fun a b => if a = b then (1 : ℚ) else 0) xs ys).sum ≤
      ((List.zipWith (fun a b => if a = b then (1 : ℚ) else 0) xs ys).length : ℚ) := by
  intro xs
  induction xs with
  | nil => intro ys; simp
  | cons a xs ih =>
    intro ys
    cases ys with
    | nil => simp
    | cons b ys =>
      simp only [List.zipWith_cons_cons, List.sum_cons, List.length_cons]
      have h1 : (if a = b then (1 : ℚ) else 0) ≤ 1 := by
        by_cases hab : a = b <;> simp [hab]
      have h2 := ih ys
      push_cast
      linarith

/-- C6: for two well-formed nonempty tensors of identical shape,
`reduce_mean_equal` returns the number of positions at which the tensors hold
equal elements (exact comparison) divided by the total number of positions.
The total element count is nonzero, as the division in the claim presumes. -/
theorem reduce_mean_equal_ratio (x y : Tensor ℚ) (hx : x.wf) (hy : y.wf)
    (hsh : x.shape = y.shape) (hne : x.data.length ≠ 0) :
    reduce_mean_equal x y = some ((eqCount x y : ℚ) / (x.data.length : ℚ)) := by
  have hlen : x.data.length = y.data.length := by
    have h1 : x.data.length = x.shape.prod := hx
    have h2 : y.data.length = y.shape.prod := hy
    rw [h1, h2, hsh]
  unfold reduce_mean_equal reduce_mean equalFloat eqCount
  have hzlen : (List.zipWith (fun a b => if a = b then (1 : ℚ) else 0)
      x.data y.data).length = x.data.length := by
    rw [List.length_zipWith, ← hlen, Nat.min_self]
  simp only [hzlen]
  rw [if_neg hne, indicator_sum_eq_count]

/-- Witness for C6 at the worked example `x = [1, 2, 3, 4]`,
`y = [1, 0, 3, 0]`, where the returned fraction is `2 / 4 = 0.5`. -/
theorem reduce_mean_equal_ratio_witness :
    (⟨[4], [1, 2, 3, 4]⟩ : Tensor ℚ).wf ∧ (⟨[4], [1, 0, 3, 0]⟩ : Tensor ℚ).wf ∧
    ([4] : List Nat) = [4] ∧ (4 : Nat) ≠ 0 ∧
    eqCount ⟨[4], [1, 2, 3, 4]⟩ ⟨[4], [1, 0, 3, 0]⟩ = 2 ∧
    ((2 : ℚ) / 4 = 1 / 2) ∧
    reduce_mean_equal ⟨[4], [1, 2, 3, 4]⟩ ⟨[4], [1, 0, 3, 0]⟩ =
      some ((eqCount ⟨[4], [1, 2, 3, 4]⟩ ⟨[4], [1, 0, 3, 0]⟩ : ℚ) / (4 : ℚ)) :=
  ⟨by decide, by decide, rfl, by decide, by decide, by norm_num,
    reduce_mean_equal_ratio ⟨[4], [1, 2, 3, 4]⟩ ⟨[4], [1, 0, 3, 0]⟩
      (by decide) (by decide) rfl (by decide)⟩

/-- C7 (amended): for two well-formed tensors of identical shape holding at
least one element, the scalar returned by `reduce_mean_equal` lies in
`[0, 1]`.  For tensors with zero elements the claim fails: `tf.reduce_mean`
returns NaN there, which is not a value in `[0, 1]` (see the
counterexample). -/
theorem reduce_mean_equal_bounds (x y : Tensor ℚ) (hx : x.wf) (hy : y.wf)
    (hsh : x.shape = y.shape) (hne : x.data.length ≠ 0) :
    ∃ q, reduce_mean_equal x y = some q ∧ 0 ≤ q ∧ q ≤ 1 := by
  have hlen : x.data.length = y.data.length := by
    have h1 : x.data.length = x.shape.prod := hx
    have h2 : y.data.length = y.shape.prod := hy
    rw [h1, h2, hsh]
  unfold reduce_mean_equal reduce_mean equalFloat
  have hzlen : (List.zipWith (fun a b => if a = b then (1 : ℚ) else 0)
      x.data y.data).length = x.data.length := by
    rw [List.length_zipWith, ← hlen, Nat.min_self]
  simp only [hzlen]
  rw [if_neg hne]
  refine ⟨_, rfl, ?_, ?_⟩
  · apply div_nonneg (indicator_sum_nonneg x.data y.data)
    exact Nat.cast_nonneg _
  · rw [div_le_one (by exact_mod_cast Nat.pos_of_ne_zero hne)]
    have := indicator_sum_le_length x.data y.data
    rwa [hzlen] at this

/-- Witness for C7 at `x = [1, 2]`, `y = [1, 3]`. -/
theorem reduce_mean_equal_bounds_witness :
    (⟨[2], [1, 2]⟩ : Tensor ℚ).wf ∧ (⟨[2], [1, 3]⟩ : Tensor ℚ).wf ∧
    ([2] : List Nat) = [2] ∧ (2 : Nat) ≠ 0 ∧
    (∃ q, reduce_mean_equal ⟨[2], [1, 2]⟩ ⟨[2], [1, 3]⟩ = some q ∧
      0 ≤ q ∧ q ≤ 1) :=
  ⟨by decide, by decide, rfl, by decide,
    reduce_mean_equal_bounds ⟨[2], [1, 2]⟩ ⟨[2], [1, 3]⟩
      (by decide) (by decide) rfl (by decide)⟩

/-- Counterexample to C7 as stated: on the empty tensors of shape `(0,)`
(zero total elements, identical shapes) `tf.reduce_mean` averages zero
elements and returns NaN (modelled `none`), so `reduce_mean_equal` does not
return a scalar in `[0, 1]`. -/
theorem reduce_mean_equal_empty_nan :
    (⟨[0], []⟩ : Tensor ℚ).wf ∧
    reduce_mean_equal (⟨[0], []⟩ : Tensor ℚ) (⟨[0], []⟩ : Tensor ℚ) = none :=
  ⟨by decide, by decide⟩

/-- C10: `reduce_mean_equal` is commutative on tensors of identical shape. -/
theorem reduce_mean_equal_comm (x y : Tensor ℚ) (hsh : x.shape = y.shape) :
    reduce_mean_equal x y = reduce_mean_equal y x := by
  unfold reduce_mean_equal equalFloat
  have hcomm : ∀ a b : ℚ, (if a = b then (1 : ℚ) else 0) =
      (if b = a then (1 : ℚ) else 0) := by
    intro a b
    by_cases hab : a = b
    · simp [hab]
    · have hba : ¬ b = a := fun h => hab h.symm
      simp [hab, hba]
  rw [List.zipWith_comm_of_comm _ hcomm x.data y.data]

/-- Witness for C10 at `x = [1, 2, 3, 4]`, `y = [1, 0, 3, 0]`. -/
theorem reduce_mean_equal_comm_witness :
    ([4] : List Nat) = [4] ∧
    reduce_mean_equal ⟨[4], [1, 2, 3, 4]⟩ ⟨[4], [1, 0, 3, 0]⟩ =
      reduce_mean_equal ⟨[4], [1, 0, 3, 0]⟩ ⟨[4], [1, 2, 3, 4]⟩ :=
  ⟨rfl, reduce_mean_equal_comm ⟨[4], [1, 2, 3, 4]⟩ ⟨[4], [1, 0, 3, 0]⟩ rfl⟩

/-- `tf.expand_dims(t, 0)`: prepend a size-1 axis; row-major data unchanged. -/
def expand_dims0 {α : Type} (t : Tensor α) : Tensor α :=
  ⟨1 :: t.shape, t.data⟩

/-- `tf.tile(t, (b, 1, ..., 1))`: repeat the tensor `b` times along axis 0;
in row-major order the data is `b` concatenated copies of the input data. -/
def tile_axis0 {α : Type} (b : Nat) (t : Tensor α) : Tensor α :=
  match t.shape with
  | [] => t
  | s0 :: rest => ⟨b * s0 :: rest, (List.replicate b t.data).flatten⟩

/-- `tf.gather(params, ids, batch_dims=1)` for rank-3 `params` of shape
`(b, p, l)` and rank-2 `ids` of shape `(b, nc)`: the output of shape
`(b, nc, l)` holds `params[i][ids[i][j]]` at `[i][j]`.  The leading axes must
agree and every index must lie in `[0, p)`; TensorFlow rejects the call
otherwise. -/
def gather_batch1 {α : Type} (params : Tensor α) (ids : Tensor Int) :
    Option (Tensor α) :=
  match params.shape, ids.shape with
  | [b, p, l], [b2, nc] =>
    if b = b2 ∧ ∀ e ∈ ids.data, 0 ≤ e ∧ e < (p : Int) then
      some ⟨[b2, nc, l],
        (List.range b2).flatMap fun i =>
          ((ids.data.drop (i * nc)).take nc).flatMap fun e =>
            (params.data.drop (i * (p * l) + e.toNat * l)).take l⟩
    else none
  | _, _ => none

/-- `get_candidate_values(x, candidate_ids)`:
`tf.gather(tf.tile(tf.expand_dims(batch_flatten(x), 0),
(tf.shape(candidate_ids)[0], 1, 1)), candidate_ids, batch_dims=1)`. -/
def get_candidate_values {α : Type} (x : Tensor α) (candidate_ids : Tensor Int) :
    Option (Tensor α) :=
  (batch_flatten x).bind fun flat =>
    gather_batch1 (tile_axis0 (candidate_ids.shape.headD 0) (expand_dims0 flat))
      candidate_ids

theorem replicate_flatten_eq_flatMap {α : Type} (n : Nat) (d : List α) :
    (List.replicate n d).flatten = (List.range n).flatMap fun _ => d := by
  induction n with
  | zero => rfl
  | succ n ih =>
    rw [List.replicate_succ, List.flatten_cons, List.range_succ_eq_map,
      List.flatMap_cons, List.flatMap_map, ih]

theorem get_eq_getD {α : Type} (l : List α) (j : Nat) (hj : j < l.length) (d₀ : α) :
    l.get ⟨j, hj⟩ = l.getD j d₀ := by
  rw [List.getD_eq_getElem?_getD, List.getElem?_eq_getElem hj]
  rfl

/-- The flat data produced by the in-range branch of `gather_batch1` applied to
the tiled pool of a flattened `(B, F)` tensor, written out for reuse in
proofs. -/
def gatherSlices {α : Type} (B nc F : Nat) (idata : List Int) (xd : List α) :
    List α :=
  (List.range B).flatMap fun i =>
    ((idata.drop (i * nc)).take nc).flatMap fun e =>
      ((List.replicate B xd).flatten.drop (i * (B * F) + e.toNat * F)).take F

/-- C1 (amended): for every well-formed 2-D tensor `x` of shape
`(batch_size, F)` with `F > 0` and every well-formed integer tensor
`candidate_ids` of shape `(batch_size, num_candidates)` whose entries all lie
in `[0, batch_size)`, `get_candidate_values` returns a well-formed tensor of
shape `(batch_size, num_candidates, F)` such that `output[i][j]` equals row
`candidate_ids[i][j]` of the batch-flattened pool of `x` (which is `x`
itself).  For inputs of higher rank the last dimension of the result is the
last axis size of `x`, not the collapsed per-example feature length claimed —
see the counterexample. -/
theorem get_candidate_values_spec {α : Type} (x : Tensor α) (ids : Tensor Int)
    (B F nc : Nat) (hwf : x.wf) (hx : x.shape = [B, F]) (hF : 0 < F)
    (hiwf : ids.wf) (hish : ids.shape = [B, nc])
    (hrange : ∀ e ∈ ids.data, 0 ≤ e ∧ e < (B : Int)) :
    ∃ t, get_candidate_values x ids = some t ∧ t.shape = [B, nc, F] ∧ t.wf ∧
      ∀ i j, i < B → j < nc →
        (t.data.drop ((i * nc + j) * F)).take F =
          (x.data.drop ((ids.data.getD (i * nc + j) 0).toNat * F)).take F := by
  obtain ⟨xs, xd⟩ := x
  obtain ⟨ishape, idata⟩ := ids
  replace hx : xs = [B, F] := hx
  replace hish : ishape = [B, nc] := hish
  subst hx
  subst hish
  replace hrange : ∀ e ∈ idata, 0 ≤ e ∧ e < (B : Int) := hrange
  have hlen : xd.length = B * F := by
    have h : xd.length = List.prod [B, F] := hwf
    simpa using h
  have hidlen : idata.length = B * nc := by
    have h : idata.length = List.prod [B, nc] := hiwf
    simpa using h
  have hflat : batch_flatten (⟨[B, F], xd⟩ : Tensor α) = some ⟨[B, F], xd⟩ := by
    have h := batch_flatten_eq (⟨[B, F], xd⟩ : Tensor α) F hwf (by simp)
      (by simp [List.getLast?_cons_cons, List.getLast?_singleton]) (by omega)
    simpa using h
  have htile : tile_axis0 B (expand_dims0 (⟨[B, F], xd⟩ : Tensor α)) =
      ⟨[B, B, F], (List.replicate B xd).flatten⟩ := by
    show (⟨[B * 1, B, F], (List.replicate B xd).flatten⟩ : Tensor α) = _
    rw [Nat.mul_one]
  have hcv : get_candidate_values (⟨[B, F], xd⟩ : Tensor α) ⟨[B, nc], idata⟩ =
      some ⟨[B, nc, F], gatherSlices B nc F idata xd⟩ := by
    unfold get_candidate_values
    rw [hflat, Option.some_bind]
    show gather_batch1 (tile_axis0 B (expand_dims0 ⟨[B, F], xd⟩)) ⟨[B, nc], idata⟩ = _
    rw [htile]
    show (if B = B ∧ ∀ e ∈ idata, 0 ≤ e ∧ e < (B : Int) then
        some (⟨[B, nc, F], gatherSlices B nc F idata xd⟩ : Tensor α)
      else none) = _
    rw [if_pos ⟨rfl, hrange⟩]
  have hrowlen : ∀ i, i < B → ((idata.drop (i * nc)).take nc).length = nc :=
    fun i hi => chunk_length idata nc i B hi hidlen
  have hinner : ∀ i, i < B → ∀ e ∈ idata,
      ((List.replicate B xd).flatten.drop (i * (B * F) + e.toNat * F)).take F =
        (xd.drop (e.toNat * F)).take F := by
    intro i hi e he
    obtain ⟨h0, hB⟩ := hrange e he
    have hB2 : e.toNat < B := by omega
    rw [replicate_flatten_eq_flatMap, ← hlen]
    rw [flatMap_slice_uniform (fun _ => xd) xd.length (List.range B)
      (fun b _ => rfl) i (by simpa using hi) (e.toNat * F) F ?bnd]
    case bnd =>
      rw [hlen]
      have h2 := Nat.mul_le_mul_right F (Nat.succ_le_of_lt hB2)
      rw [Nat.succ_mul] at h2
      exact h2
  have hchunkF : ∀ e ∈ idata, ((xd.drop (e.toNat * F)).take F).length = F := by
    intro e he
    obtain ⟨h0, hB⟩ := hrange e he
    exact chunk_length xd F e.toNat B (by omega) hlen
  have hg : ∀ i, i < B →
      ((((idata.drop (i * nc)).take nc).flatMap fun e =>
        ((List.replicate B xd).flatten.drop (i * (B * F) + e.toNat * F)).take F)) =
      (((idata.drop (i * nc)).take nc).flatMap fun e =>
        (xd.drop (e.toNat * F)).take F) := by
    intro i hi
    exact List.flatMap_congr fun e he =>
      hinner i hi e (List.mem_of_mem_drop (List.mem_of_mem_take he))
  have hglen : ∀ b ∈ List.range B,
      ((fun i => ((idata.drop (i * nc)).take nc).flatMap fun e =>
        ((List.replicate B xd).flatten.drop (i * (B * F) + e.toNat * F)).take F) b).length
        = nc * F := by
    intro b hb
    rw [List.mem_range] at hb
    show ((((idata.drop (b * nc)).take nc).flatMap fun e =>
      ((List.replicate B xd).flatten.drop (b * (B * F) + e.toNat * F)).take F)).length = nc * F
    rw [hg b hb,
      flatMap_length_uniform _ F _ (fun e he =>
        hchunkF e (List.mem_of_mem_drop (List.mem_of_mem_take he))),
      hrowlen b hb]
  have hwfbig : (gatherSlices B nc F idata xd).length = ([B, nc, F] : List Nat).prod := by
    unfold gatherSlices
    rw [flatMap_length_uniform _ (nc * F) _ hglen, List.length_range]
    simp [Nat.mul_assoc]
  have hmain : ∀ i j, i < B → j < nc →
      ((gatherSlices B nc F idata xd).drop ((i * nc + j) * F)).take F =
        (xd.drop ((idata.getD (i * nc + j) 0).toNat * F)).take F := by
    intro i j hi hj
    have harith : (i * nc + j) * F = i * (nc * F) + j * F := by ring
    rw [harith]
    unfold gatherSlices
    rw [flatMap_slice_uniform _ (nc * F) (List.range B) hglen i
      (by simpa using hi) (j * F) F ?bnd2]
    case bnd2 =>
      have h2 := Nat.mul_le_mul_right F (Nat.succ_le_of_lt hj)
      rw [Nat.succ_mul] at h2
      exact h2
    rw [List.get_range]
    show (((((idata.drop (i * nc)).take nc).flatMap fun e =>
      ((List.replicate B xd).flatten.drop (i * (B * F) + e.toNat * F)).take F)).drop
        (j * F)).take F = _
    rw [hg i hi]
    have hj2 : j < ((idata.drop (i * nc)).take nc).length := by
      rw [hrowlen i hi]
      exact hj
    have h2 := flatMap_slice_uniform (fun e : Int => (xd.drop (e.toNat * F)).take F)
      F ((idata.drop (i * nc)).take nc)
      (fun e he => hchunkF e (List.mem_of_mem_drop (List.mem_of_mem_take he)))
      j hj2 0 F (by omega)
    simp only [Nat.add_zero, List.drop_zero] at h2
    rw [h2, get_eq_getD _ j hj2 (0 : Int),
      getD_take_drop idata (i * nc) nc j (0 : Int) hj]
    simp only [List.take_take, Nat.min_self]
  exact ⟨⟨[B, nc, F], gatherSlices B nc F idata xd⟩, hcv, rfl, hwfbig, hmain⟩

/-- Witness for C1 at the worked example `x = [[0,1,2],[3,4,5],[6,7,8]]`,
`candidate_ids = [[0,1],[0,0],[2,0]]`, whose output is the quoted
`[[[0,1,2],[3,4,5]],[[0,1,2],[0,1,2]],[[6,7,8],[0,1,2]]]`. -/
theorem get_candidate_values_spec_witness :
    (⟨[3, 3], [0, 1, 2, 3, 4, 5, 6, 7, 8]⟩ : Tensor ℚ).wf ∧
    (0 : Nat) < 3 ∧
    (⟨[3, 2], [0, 1, 0, 0, 2, 0]⟩ : Tensor Int).wf ∧
    (∀ e ∈ (⟨[3, 2], [0, 1, 0, 0, 2, 0]⟩ : Tensor Int).data,
      0 ≤ e ∧ e < ((3 : Nat) : Int)) ∧
    (∃ t, get_candidate_values (⟨[3, 3], [0, 1, 2, 3, 4, 5, 6, 7, 8]⟩ : Tensor ℚ)
        ⟨[3, 2], [0, 1, 0, 0, 2, 0]⟩ = some t ∧
      t.shape = [3, 2, 3] ∧ t.wf ∧
      ∀ i j, i < 3 → j < 2 →
        (t.data.drop ((i * 2 + j) * 3)).take 3 =
          (((⟨[3, 3], [0, 1, 2, 3, 4, 5, 6, 7, 8]⟩ : Tensor ℚ).data.drop
            (((⟨[3, 2], [0, 1, 0, 0, 2, 0]⟩ : Tensor Int).data.getD (i * 2 + j) 0).toNat
              * 3)).take 3)) ∧
    get_candidate_values (⟨[3, 3], [0, 1, 2, 3, 4, 5, 6, 7, 8]⟩ : Tensor ℚ)
        ⟨[3, 2], [0, 1, 0, 0, 2, 0]⟩ =
      some ⟨[3, 2, 3], [0, 1, 2, 3, 4, 5, 0, 1, 2, 0, 1, 2, 6, 7, 8, 0, 1, 2]⟩ :=
  ⟨by decide, by decide, by decide, by decide,
    get_candidate_values_spec (⟨[3, 3], [0, 1, 2, 3, 4, 5, 6, 7, 8]⟩ : Tensor ℚ)
      ⟨[3, 2], [0, 1, 0, 0, 2, 0]⟩ 3 3 2 (by decide) rfl (by decide) (by decide)
      rfl (by decide),
    by decide⟩

/-- Counterexample to C1 as stated: for the well-formed rank-3 tensor `x` of
shape `(2, 2, 2)` holding `0..7` and `candidate_ids = [[0], [1]]` (entries in
`[0, batch_size) = [0, 2)`), the claim predicts an output of shape
`(2, 1, F)` with `F = 4` (the collapsed non-batch feature length), but
`get_candidate_values` returns a tensor of shape `(2, 1, 2)`: the last
dimension is the last axis size of `x`, not `4`. -/
theorem get_candidate_values_rank3_shape :
    (⟨[2, 2, 2], [0, 1, 2, 3, 4, 5, 6, 7]⟩ : Tensor ℚ).wf ∧
    (⟨[2, 1], [0, 1]⟩ : Tensor Int).wf ∧
    (∀ e ∈ (⟨[2, 1], [0, 1]⟩ : Tensor Int).data, 0 ≤ e ∧ e < ((2 : Nat) : Int)) ∧
    Option.map Tensor.shape
      (get_candidate_values (⟨[2, 2, 2], [0, 1, 2, 3, 4, 5, 6, 7]⟩ : Tensor ℚ)
        ⟨[2, 1], [0, 1]⟩) = some [2, 1, 2] ∧
    ([2, 1, 2] : List Nat) ≠ [2, 1, 4] := by
  refine ⟨by decide, by decide, by decide, by decide, by decide⟩

end LayersUtils
